import Mathlib

/-!
Verification of the Draft Reconciliation Engine of the Special Items page
(`SpecialItemsPage`): the seed / toggle / dirty-diff / batch-save state
machine over the `draftSpecialDays` and `originalSpecialDays` maps.

The embedding mirrors the TypeScript source:

* `allowedDayValues`, `arraysEqual`, the seed effect, `changedIds`,
  `toggleDay` and `saveChanges` are translated function by function.
* The `Record<string, string[]>` maps (`SpecialMap`) become association
  lists with JavaScript object semantics: `setVal` replaces the value in
  place when the key exists and appends otherwise.
* The per-item REST call `productsAPI.updateProduct` becomes an abstract
  `dispatch : String → List String → Except String Unit`; a rejected
  promise is an `Except.error`.  `Promise.all` resolves exactly when every
  member resolves and otherwise rejects with the first rejection, which is
  `firstError` below.  The `try`/`catch` of `saveChanges` and the aggregate
  `toast` calls are modelled by the `SaveOutcome` record.
-/

namespace SpecialItems

/-- The fixed vocabulary of weekday tokens, `dayOptions.map (d => d.value)`
in the source. -/
def allowedDayValues : List String := ["mon", "tue", "wed", "thu", "fri"]

/-- The part of a remote `Product` record the engine reads: its id and its
(possibly missing) `specialDays` attribute. -/
structure Product where
  _id : String
  specialDays : Option (List String)
deriving DecidableEq

/-- `SpecialMap = Record<string, string[]>`, as an association list with
JavaScript object semantics. -/
abbrev SpecialMap := List (String × List String)

/-- Key lookup in a `SpecialMap` (`map[id]`, `undefined` ↦ `none`). -/
def getVal : SpecialMap → String → Option (List String)
  | [], _ => none
  | (k, v) :: rest, id => if k = id then some v else getVal rest id

/-- Key update in a `SpecialMap` (`{...prev, [id]: v}` / `map[id] = v`):
replaces the value in place when the key exists, appends otherwise. -/
def setVal : SpecialMap → String → List String → SpecialMap
  | [], id, v => [(id, v)]
  | (k, w) :: rest, id, v =>
      if k = id then (id, v) :: rest else (k, w) :: setVal rest id v

/-- Lexicographic comparison of character lists, the order JavaScript's
default `Array.prototype.sort` applies to strings (code-unit order; the
tokens involved are ASCII, where code-unit and scalar-value order agree). -/
def charListLe : List Char → List Char → Bool
  | [], _ => true
  | _ :: _, [] => false
  | a :: as, b :: bs => if a < b then true else if b < a then false else charListLe as bs

/-- String comparison used by the sort in `arraysEqual`. -/
def strLe (a b : String) : Bool := charListLe a.data b.data

/-- `[...a].sort()` of the source: a sorted copy of the token list. -/
def sortTokens (l : List String) : List String :=
  List.insertionSort (fun a b => strLe a b = true) l

/-- `arraysEqual` of the source: sort copies of both arrays, then compare
length and elements pointwise. -/
def arraysEqual (a b : List String) : Bool :=
  let aSorted := sortTokens a
  let bSorted := sortTokens b
  aSorted.length == bSorted.length &&
    (aSorted.zip bSorted).all (fun p => p.1 == p.2)

/-- The normalized attribute value seeded for one item:
`(item.specialDays ?? []).filter((day) => allowedDayValues.includes(day))`. -/
def normalizeDays (item : Product) : List String :=
  (item.specialDays.getD []).filter (fun day => allowedDayValues.contains day)

/-- The map built by the seed effect: `items.forEach((item) =>
map[item._id] = validDays)` starting from the empty object. -/
def seedMap (items : List Product) : SpecialMap :=
  items.foldl (fun map item => setVal map item._id (normalizeDays item)) []

/-- The component state owned by the engine: the draft map and the
baseline (`originalSpecialDays`) map. -/
structure EngineState where
  draftSpecialDays : SpecialMap
  originalSpecialDays : SpecialMap
deriving DecidableEq

/-- The seed effect (`useEffect` on `[items]`): rebuilds one normalized map
from scratch and stores it as both draft and baseline, discarding all prior
content. -/
def seed (items : List Product) (_s : EngineState) : EngineState :=
  { draftSpecialDays := seedMap items, originalSpecialDays := seedMap items }

/-- `changedIds`: ids of loaded items whose draft and baseline values are
not `arraysEqual` (an absent entry reads as `[]`, the source's default
parameters). -/
def changedIds (items : List Product) (orig draft : SpecialMap) : List String :=
  (items.map Product._id).filter
    (fun id => !arraysEqual ((getVal orig id).getD []) ((getVal draft id).getD []))

/-- `toggleDay`: remove the day if present in the draft entry, append it
otherwise; a missing entry reads as `[]`. -/
def toggleDay (itemId day : String) (draft : SpecialMap) : SpecialMap :=
  let existing := (getVal draft itemId).getD []
  let next :=
    if existing.contains day then existing.filter (fun d => d != day)
    else existing ++ [day]
  setVal draft itemId next

/-- `toggleDay` lifted to the full component state: it calls only
`setDraftSpecialDays`, so the baseline component is untouched. -/
def toggleDayState (itemId day : String) (s : EngineState) : EngineState :=
  { s with draftSpecialDays := toggleDay itemId day s.draftSpecialDays }

/-- The two aggregate notifications `saveChanges` can emit. -/
inductive Toast where
  | success
  | error
deriving DecidableEq

/-- `Promise.all` over settled results: resolves exactly when every member
resolved, otherwise rejects with the first rejection. -/
def firstError : List (Except String Unit) → Except String Unit
  | [] => Except.ok ()
  | Except.error e :: _ => Except.error e
  | Except.ok _ :: rest => firstError rest

instance : DecidableEq (Except String Unit) := fun a b =>
  match a, b with
  | Except.ok u, Except.ok v => isTrue (by cases u; cases v; rfl)
  | Except.ok _, Except.error _ => isFalse (fun h => by cases h)
  | Except.error _, Except.ok _ => isFalse (fun h => by cases h)
  | Except.error e, Except.error f =>
      if h : e = f then isTrue (by rw [h]) else isFalse (fun hh => h (Except.error.inj hh))

/-- The body of the `try` block: dispatch every dirty id concurrently and
settle as `Promise.all` does. -/
def saveAttempt (ids : List String) (draft : SpecialMap)
    (dispatch : String → List String → Except String Unit) : Except String Unit :=
  firstError (ids.map (fun id => dispatch id ((getVal draft id).getD [])))

/-- Everything observable about one `saveChanges()` call: the two maps
afterwards, the ids dispatched, the toasts emitted, and whether `refetch`
was triggered. -/
structure SaveOutcome where
  draftSpecialDays : SpecialMap
  originalSpecialDays : SpecialMap
  dispatched : List String
  toasts : List Toast
  refetched : Bool
deriving DecidableEq

/-- `saveChanges`: early-return on an empty dirty set; otherwise dispatch
every dirty id, and on collective success toast once, advance the whole
baseline map to the draft map and refetch, while on any failure the
`catch` block toasts once and leaves both maps untouched. -/
def saveChanges (items : List Product) (orig draft : SpecialMap)
    (dispatch : String → List String → Except String Unit) : SaveOutcome :=
  let ids := changedIds items orig draft
  if ids.isEmpty then
    { draftSpecialDays := draft, originalSpecialDays := orig,
      dispatched := [], toasts := [], refetched := false }
  else
    match saveAttempt ids draft dispatch with
    | Except.ok _ =>
        { draftSpecialDays := draft, originalSpecialDays := draft,
          dispatched := ids, toasts := [Toast.success], refetched := true }
    | Except.error _ =>
        { draftSpecialDays := draft, originalSpecialDays := orig,
          dispatched := ids, toasts := [Toast.error], refetched := false }

/-! ### Order facts about the sort comparator -/

theorem charListLe_cons (a b : Char) (as bs : List Char) :
    charListLe (a :: as) (b :: bs)
      = if a < b then true else if b < a then false else charListLe as bs := rfl

theorem charListLe_total : ∀ a b : List Char, charListLe a b = true ∨ charListLe b a = true
  | [], _ => Or.inl rfl
  | _ :: _, [] => Or.inr rfl
  | a :: as, b :: bs => by
    rcases lt_trichotomy a b with h | h | h
    · exact Or.inl (by rw [charListLe_cons, if_pos h])
    · subst h
      rcases charListLe_total as bs with h2 | h2
      · exact Or.inl
          (by rw [charListLe_cons, if_neg (lt_irrefl a), if_neg (lt_irrefl a)]; exact h2)
      · exact Or.inr
          (by rw [charListLe_cons, if_neg (lt_irrefl a), if_neg (lt_irrefl a)]; exact h2)
    · exact Or.inr (by rw [charListLe_cons, if_pos h])

theorem charListLe_trans :
    ∀ a b c : List Char, charListLe a b = true → charListLe b c = true →
      charListLe a c = true
  | [], _, _, _, _ => rfl
  | _ :: _, [], _, hab, _ => by simp [charListLe] at hab
  | _ :: _, _ :: _, [], _, hbc => by simp [charListLe] at hbc
  | a :: as, b :: bs, c :: cs, hab, hbc => by
    rw [charListLe_cons] at hab hbc ⊢
    rcases lt_trichotomy a b with h1 | h1 | h1
    · rcases lt_trichotomy b c with h2 | h2 | h2
      · rw [if_pos (lt_trans h1 h2)]
      · subst h2; rw [if_pos h1]
      · rw [if_neg (lt_asymm h2), if_pos h2] at hbc; cases hbc
    · subst h1
      rw [if_neg (lt_irrefl a), if_neg (lt_irrefl a)] at hab
      rcases lt_trichotomy a c with h2 | h2 | h2
      · rw [if_pos h2]
      · subst h2
        rw [if_neg (lt_irrefl a), if_neg (lt_irrefl a)] at hbc ⊢
        exact charListLe_trans as bs cs hab hbc
      · rw [if_neg (lt_asymm h2), if_pos h2] at hbc; cases hbc
    · rw [if_neg (lt_asymm h1), if_pos h1] at hab; cases hab

theorem charListLe_antisymm :
    ∀ a b : List Char, charListLe a b = true → charListLe b a = true → a = b
  | [], [], _, _ => rfl
  | [], _ :: _, _, hba => by simp [charListLe] at hba
  | _ :: _, [], hab, _ => by simp [charListLe] at hab
  | a :: as, b :: bs, hab, hba => by
    rw [charListLe_cons] at hab hba
    rcases lt_trichotomy a b with h | h | h
    · rw [if_neg (lt_asymm h), if_pos h] at hba; cases hba
    · subst h
      rw [if_neg (lt_irrefl a), if_neg (lt_irrefl a)] at hab hba
      rw [charListLe_antisymm as bs hab hba]
    · rw [if_neg (lt_asymm h), if_pos h] at hab; cases hab

/-! ### `arraysEqual` decides permutation equivalence -/

theorem strLeTotal : ∀ a b : String, strLe a b = true ∨ strLe b a = true :=
  fun a b => charListLe_total a.data b.data

theorem strLeTrans :
    ∀ a b c : String, strLe a b = true → strLe b c = true → strLe a c = true :=
  fun a b c => charListLe_trans a.data b.data c.data

theorem strLeAntisymm :
    ∀ a b : String, strLe a b = true → strLe b a = true → a = b := by
  intro a b hab hba
  cases a with
  | mk da =>
    cases b with
    | mk db => exact congrArg String.mk (charListLe_antisymm da db hab hba)

theorem sortTokens_perm (l : List String) : List.Perm (sortTokens l) l :=
  List.perm_insertionSort _ l

theorem sortTokens_sorted (l : List String) :
    List.Sorted (fun a b => strLe a b = true) (sortTokens l) := by
  haveI : IsTotal String (fun a b => strLe a b = true) := ⟨strLeTotal⟩
  haveI : IsTrans String (fun a b => strLe a b = true) := ⟨strLeTrans⟩
  exact List.sorted_insertionSort _ l

theorem sortTokens_eq_of_perm {a b : List String} (h : List.Perm a b) :
    sortTokens a = sortTokens b := by
  haveI : IsAntisymm String (fun a b => strLe a b = true) := ⟨strLeAntisymm⟩
  exact List.eq_of_perm_of_sorted
    ((sortTokens_perm a).trans (h.trans (sortTokens_perm b).symm))
    (sortTokens_sorted a) (sortTokens_sorted b)

theorem length_all_zip_iff :
    ∀ s t : List String,
      ((s.length == t.length) && ((s.zip t).all fun p => p.1 == p.2)) = true ↔ s = t := by
  intro s
  induction s with
  | nil => intro t; cases t <;> simp
  | cons x xs ih =>
    intro t
    cases t with
    | nil => simp
    | cons y ys =>
      simp only [List.length_cons, List.zip_cons_cons, List.all_cons, Bool.and_eq_true,
        beq_iff_eq, List.cons.injEq, Nat.add_right_cancel_iff]
      constructor
      · rintro ⟨hlen, hxy, hall⟩
        exact ⟨hxy, (ih ys).mp (by simp [hlen, hall])⟩
      · rintro ⟨hxy, hrest⟩
        have := (ih ys).mpr hrest
        simp only [Bool.and_eq_true, beq_iff_eq] at this
        exact ⟨this.1, hxy, this.2⟩

theorem arraysEqual_def (a b : List String) :
    arraysEqual a b
      = (((sortTokens a).length == (sortTokens b).length) &&
          (((sortTokens a).zip (sortTokens b)).all fun p => p.1 == p.2)) := rfl

theorem arraysEqual_true_iff (a b : List String) :
    arraysEqual a b = true ↔ List.Perm a b := by
  rw [arraysEqual_def, length_all_zip_iff]
  constructor
  · intro h
    exact (sortTokens_perm a).symm.trans (h ▸ sortTokens_perm b)
  · intro h
    exact sortTokens_eq_of_perm h

theorem arraysEqual_refl (l : List String) : arraysEqual l l = true :=
  (arraysEqual_true_iff l l).mpr (List.Perm.refl l)

theorem arraysEqual_false_iff (a b : List String) :
    arraysEqual a b = false ↔ ¬ List.Perm a b := by
  rw [← arraysEqual_true_iff a b]
  cases arraysEqual a b <;> simp

/-! ### Lookup/update lemmas for the association-list maps -/

theorem getVal_setVal_self :
    ∀ (m : SpecialMap) (id : String) (v : List String),
      getVal (setVal m id v) id = some v
  | [], id, v => by simp [setVal, getVal]
  | (k, w) :: rest, id, v => by
    by_cases h : k = id
    · simp [setVal, h, getVal]
    · simp [setVal, h, getVal, getVal_setVal_self rest id v]

theorem getVal_setVal_ne :
    ∀ (m : SpecialMap) (id j : String) (v : List String), j ≠ id →
      getVal (setVal m id v) j = getVal m j
  | [], id, j, v, h => by
    have hne : ¬ id = j := fun hc => h hc.symm
    simp [setVal, getVal, hne]
  | (k, w) :: rest, id, j, v, h => by
    by_cases hk : k = id
    · subst hk
      have hne : ¬ k = j := fun hc => h hc.symm
      simp [setVal, getVal, hne]
    · simp [setVal, hk, getVal, getVal_setVal_ne rest id j v h]

/-- Unfolding form of the seed fold step. -/
theorem seedMap_eq (items : List Product) :
    seedMap items
      = items.foldl (fun map item => setVal map item._id (normalizeDays item)) [] := rfl

theorem getVal_seedFold_not_mem :
    ∀ (items : List Product) (acc : SpecialMap) (id : String),
      id ∉ items.map Product._id →
      getVal (items.foldl (fun map item => setVal map item._id (normalizeDays item)) acc) id
        = getVal acc id
  | [], _, _, _ => rfl
  | item :: rest, acc, id, h => by
    simp only [List.map_cons, List.mem_cons, not_or] at h
    rw [List.foldl_cons, getVal_seedFold_not_mem rest _ id h.2,
      getVal_setVal_ne _ _ _ _ h.1]

theorem getVal_seedFold_isSome :
    ∀ (items : List Product) (acc : SpecialMap) (id : String),
      (getVal (items.foldl (fun map item => setVal map item._id (normalizeDays item)) acc)
          id).isSome = true
        ↔ id ∈ items.map Product._id ∨ (getVal acc id).isSome = true
  | [], acc, id => by simp
  | item :: rest, acc, id => by
    rw [List.foldl_cons, getVal_seedFold_isSome rest _ id]
    by_cases h : id = item._id
    · subst h
      simp [getVal_setVal_self]
    · rw [getVal_setVal_ne _ _ _ _ h]
      simp [h]

theorem getVal_seedFold_of_mem :
    ∀ (items : List Product) (acc : SpecialMap),
      (items.map Product._id).Nodup → ∀ item ∈ items,
      getVal (items.foldl (fun map item => setVal map item._id (normalizeDays item)) acc)
          item._id
        = some (normalizeDays item)
  | [], _, _, item, h => absurd h (List.not_mem_nil item)
  | x :: rest, acc, hnd, item, hmem => by
    have hnd0 : (x._id :: rest.map Product._id).Nodup := by simpa using hnd
    have hnd2 := List.nodup_cons.mp hnd0
    rw [List.foldl_cons]
    rcases List.mem_cons.mp hmem with rfl | hmem2
    · rw [getVal_seedFold_not_mem rest _ _ hnd2.1, getVal_setVal_self]
    · exact getVal_seedFold_of_mem rest _ hnd2.2 item hmem2

theorem getVal_seedMap_isSome (items : List Product) (id : String) :
    (getVal (seedMap items) id).isSome = true ↔ id ∈ items.map Product._id := by
  rw [seedMap_eq, getVal_seedFold_isSome]
  simp [getVal]

theorem getVal_seedMap_of_mem (items : List Product)
    (hnd : (items.map Product._id).Nodup) (item : Product) (hmem : item ∈ items) :
    getVal (seedMap items) item._id = some (normalizeDays item) :=
  getVal_seedFold_of_mem items [] hnd item hmem

/-! ### `Promise.all` settlement -/

theorem firstError_eq_ok_iff :
    ∀ rs : List (Except String Unit),
      firstError rs = Except.ok () ↔ ∀ r ∈ rs, r = Except.ok ()
  | [] => by simp [firstError]
  | Except.error e :: rest => by simp [firstError]
  | Except.ok u :: rest => by
    cases u
    simp [firstError, firstError_eq_ok_iff rest]

theorem firstError_ne_ok_iff (rs : List (Except String Unit)) :
    firstError rs ≠ Except.ok () ↔ ∃ r ∈ rs, r ≠ Except.ok () := by
  constructor
  · intro h
    by_contra hc
    push_neg at hc
    exact h ((firstError_eq_ok_iff rs).mpr hc)
  · rintro ⟨r, hr, hne⟩ h
    exact hne ((firstError_eq_ok_iff rs).mp h r hr)

theorem saveAttempt_eq_ok_iff (ids : List String) (draft : SpecialMap)
    (dispatch : String → List String → Except String Unit) :
    saveAttempt ids draft dispatch = Except.ok ()
      ↔ ∀ id ∈ ids, dispatch id ((getVal draft id).getD []) = Except.ok () := by
  rw [saveAttempt, firstError_eq_ok_iff]
  constructor
  · intro h id hid
    exact h _ (List.mem_map_of_mem _ hid)
  · intro h r hr
    rcases List.mem_map.mp hr with ⟨id, hid, rfl⟩
    exact h id hid

/-! ### The three branches of `saveChanges` -/

theorem changedIds_self (items : List Product) (m : SpecialMap) :
    changedIds items m m = [] := by
  unfold changedIds
  apply List.filter_eq_nil_iff.mpr
  intro id _
  simp [arraysEqual_refl]

theorem changedIds_sub (items : List Product) (orig draft : SpecialMap) (id : String)
    (h : id ∈ changedIds items orig draft) : id ∈ items.map Product._id :=
  List.mem_of_mem_filter h

theorem mem_changedIds_iff (items : List Product) (orig draft : SpecialMap) (id : String) :
    id ∈ changedIds items orig draft
      ↔ id ∈ items.map Product._id
        ∧ ¬ List.Perm ((getVal orig id).getD []) ((getVal draft id).getD []) := by
  unfold changedIds
  rw [List.mem_filter, Bool.not_eq_true', arraysEqual_false_iff]

theorem saveChanges_empty_branch (items : List Product) (orig draft : SpecialMap)
    (dispatch : String → List String → Except String Unit)
    (h : changedIds items orig draft = []) :
    saveChanges items orig draft dispatch
      = { draftSpecialDays := draft, originalSpecialDays := orig,
          dispatched := [], toasts := [], refetched := false } := by
  unfold saveChanges
  rw [h]
  rfl

theorem saveChanges_ok_branch (items : List Product) (orig draft : SpecialMap)
    (dispatch : String → List String → Except String Unit)
    (hne : changedIds items orig draft ≠ [])
    (h : saveAttempt (changedIds items orig draft) draft dispatch = Except.ok ()) :
    saveChanges items orig draft dispatch
      = { draftSpecialDays := draft, originalSpecialDays := draft,
          dispatched := changedIds items orig draft,
          toasts := [Toast.success], refetched := true } := by
  have hemp : (changedIds items orig draft).isEmpty = false := by
    cases h' : changedIds items orig draft with
    | nil => exact absurd h' hne
    | cons a l => rfl
  simp only [saveChanges]
  rw [hemp, h]
  rfl

theorem saveChanges_error_branch (items : List Product) (orig draft : SpecialMap)
    (dispatch : String → List String → Except String Unit) (e : String)
    (h : saveAttempt (changedIds items orig draft) draft dispatch = Except.error e) :
    saveChanges items orig draft dispatch
      = { draftSpecialDays := draft, originalSpecialDays := orig,
          dispatched := changedIds items orig draft,
          toasts := [Toast.error], refetched := false } := by
  have hne : changedIds items orig draft ≠ [] := by
    intro h0
    rw [h0] at h
    exact absurd h (by simp [saveAttempt, firstError])
  have hemp : (changedIds items orig draft).isEmpty = false := by
    cases h' : changedIds items orig draft with
    | nil => exact absurd h' hne
    | cons a l => rfl
  simp only [saveChanges]
  rw [hemp, h]
  rfl

/-! ### Toggle value computation -/

theorem contains_iff_mem (l : List String) (a : String) : l.contains a = true ↔ a ∈ l :=
  List.elem_iff

theorem toggleDay_getVal_self (draft : SpecialMap) (id t : String) :
    getVal (toggleDay id t draft) id
      = some (if ((getVal draft id).getD []).contains t
              then ((getVal draft id).getD []).filter (fun d => d != t)
              else ((getVal draft id).getD []) ++ [t]) := by
  unfold toggleDay
  exact getVal_setVal_self draft id _

theorem toggleDay_getVal_ne (draft : SpecialMap) (id t j : String) (h : j ≠ id) :
    getVal (toggleDay id t draft) j = getVal draft j := by
  unfold toggleDay
  exact getVal_setVal_ne draft id j _ h

/-! ### Claim theorems -/

/-- Claim C4: whenever the dirty-id set is empty, `saveChanges` returns
immediately as a no-op: `dispatch` is never invoked, no toast is emitted,
no refetch is triggered, and both the draft and the baseline maps are
returned unchanged. -/
theorem C4_empty_dirty_short_circuits (items : List Product) (orig draft : SpecialMap)
    (dispatch : String → List String → Except String Unit)
    (h : changedIds items orig draft = []) :
    saveChanges items orig draft dispatch
      = { draftSpecialDays := draft, originalSpecialDays := orig,
          dispatched := [], toasts := [], refetched := false } :=
  saveChanges_empty_branch items orig draft dispatch h

/-- Witness for C4: a clean one-item state short-circuits even under an
always-failing dispatch. -/
theorem C4_witness :
    changedIds [⟨"p", some ["mon"]⟩] [("p", ["mon"])] [("p", ["mon"])] = []
    ∧ saveChanges [⟨"p", some ["mon"]⟩] [("p", ["mon"])] [("p", ["mon"])]
        (fun _ _ => Except.error "network down")
      = { draftSpecialDays := [("p", ["mon"])], originalSpecialDays := [("p", ["mon"])],
          dispatched := [], toasts := [], refetched := false } :=
  ⟨by decide,
    C4_empty_dirty_short_circuits [⟨"p", some ["mon"]⟩] [("p", ["mon"])] [("p", ["mon"])]
      (fun _ _ => Except.error "network down") (by decide)⟩

/-- Claim C5: `seed` stores the same map as baseline and draft; every item
of the input gets exactly its attribute value filtered through the allowed
vocabulary; an id has an entry exactly when it occurs among the input ids
(so previously tracked ids absent from the input are dropped, whatever the
prior state); and empty input yields empty maps. -/
theorem C5_seed_normalizes (items : List Product) (prior : EngineState)
    (hnd : (items.map Product._id).Nodup) :
    (seed items prior).originalSpecialDays = (seed items prior).draftSpecialDays
    ∧ (∀ item ∈ items,
        getVal (seed items prior).draftSpecialDays item._id
          = some ((item.specialDays.getD []).filter
              (fun day => allowedDayValues.contains day)))
    ∧ (∀ id : String,
        (getVal (seed items prior).draftSpecialDays id).isSome = true
          ↔ id ∈ items.map Product._id)
    ∧ (seed [] prior).draftSpecialDays = [] ∧ (seed [] prior).originalSpecialDays = [] := by
  refine ⟨rfl, ?_, ?_, rfl, rfl⟩
  · intro item hmem
    exact getVal_seedMap_of_mem items hnd item hmem
  · intro id
    exact getVal_seedMap_isSome items id

/-- Witness for C5: seeding two items over stale prior state keeps only
valid tokens and drops the stale id. -/
theorem C5_witness :
    (([⟨"p1", some ["mon", "xyz"]⟩, ⟨"p2", none⟩] : List Product).map Product._id).Nodup
    ∧ getVal (seed [⟨"p1", some ["mon", "xyz"]⟩, ⟨"p2", none⟩]
          ⟨[("old", ["fri"])], [("old", ["fri"])]⟩).draftSpecialDays "p1"
        = some ["mon"]
    ∧ ((getVal (seed [⟨"p1", some ["mon", "xyz"]⟩, ⟨"p2", none⟩]
          ⟨[("old", ["fri"])], [("old", ["fri"])]⟩).draftSpecialDays "old").isSome = true
        ↔ "old" ∈ ([⟨"p1", some ["mon", "xyz"]⟩, ⟨"p2", none⟩] : List Product).map Product._id) := by
  have h := C5_seed_normalizes [⟨"p1", some ["mon", "xyz"]⟩, ⟨"p2", none⟩]
    ⟨[("old", ["fri"])], [("old", ["fri"])]⟩ (by decide)
  exact ⟨by decide,
    (h.2.1 ⟨"p1", some ["mon", "xyz"]⟩ (by decide)).trans (by decide),
    h.2.2.1 "old"⟩

/-- Claim C6: `seed` is idempotent — re-seeding with the same input leaves
the state exactly as after the first seed, and the dirty set is empty after
seeding (hence after each of the two calls). -/
theorem C6_seed_idempotent (items : List Product) (s : EngineState) :
    seed items (seed items s) = seed items s
    ∧ changedIds items (seed items s).originalSpecialDays
        (seed items s).draftSpecialDays = [] :=
  ⟨rfl, changedIds_self items (seedMap items)⟩

/-- Claim C9: `toggleDay` writes only the draft entry of the toggled id —
the baseline map is untouched and every draft entry of any other id keeps
its value. -/
theorem C9_toggle_frame (s : EngineState) (id t j : String) (hne : j ≠ id) :
    (toggleDayState id t s).originalSpecialDays = s.originalSpecialDays
    ∧ getVal (toggleDayState id t s).draftSpecialDays j
        = getVal s.draftSpecialDays j :=
  ⟨rfl, toggleDay_getVal_ne s.draftSpecialDays id t j hne⟩

/-- Witness for C9: toggling `"p"` leaves the baseline and the `"q"` draft
entry unchanged. -/
theorem C9_witness :
    (toggleDayState "p" "mon"
        ⟨[("p", ["tue"]), ("q", ["wed"])], [("p", ["tue"]), ("q", ["wed"])]⟩).originalSpecialDays
      = [("p", ["tue"]), ("q", ["wed"])]
    ∧ getVal (toggleDayState "p" "mon"
        ⟨[("p", ["tue"]), ("q", ["wed"])], [("p", ["tue"]), ("q", ["wed"])]⟩).draftSpecialDays "q"
      = some ["wed"] := by
  have h := C9_toggle_frame
    ⟨[("p", ["tue"]), ("q", ["wed"])], [("p", ["tue"]), ("q", ["wed"])]⟩ "p" "mon" "q"
    (by decide)
  exact ⟨h.1, h.2.trans (by decide)⟩

/-- Claim C10: an id that does not occur among the loaded items' ids is
never reported dirty and is never dispatched by `saveChanges`, no matter
how its draft entry differs from its baseline entry. -/
theorem C10_dirty_subset_items (items : List Product) (orig draft : SpecialMap)
    (dispatch : String → List String → Except String Unit) (id : String)
    (h : id ∉ items.map Product._id) :
    id ∉ changedIds items orig draft
    ∧ id ∉ (saveChanges items orig draft dispatch).dispatched := by
  have hc : id ∉ changedIds items orig draft :=
    fun hmem => h (changedIds_sub items orig draft id hmem)
  refine ⟨hc, ?_⟩
  by_cases hids : changedIds items orig draft = []
  · rw [saveChanges_empty_branch items orig draft dispatch hids]
    exact List.not_mem_nil id
  · cases hsa : saveAttempt (changedIds items orig draft) draft dispatch with
    | ok u =>
      cases u
      rw [saveChanges_ok_branch items orig draft dispatch hids hsa]
      exact hc
    | error e =>
      rw [saveChanges_error_branch items orig draft dispatch e hsa]
      exact hc

/-- Witness for C10: a draft entry for the unseeded id `"ghost"` differs
from its (absent) baseline, yet it is neither dirty nor dispatched. -/
theorem C10_witness :
    "ghost" ∉ ([⟨"p", some []⟩] : List Product).map Product._id
    ∧ "ghost" ∉ changedIds [⟨"p", some []⟩] [("p", [])] [("p", []), ("ghost", ["mon"])]
    ∧ "ghost" ∉ (saveChanges [⟨"p", some []⟩] [("p", [])] [("p", []), ("ghost", ["mon"])]
        (fun _ _ => Except.ok ())).dispatched := by
  have h := C10_dirty_subset_items [⟨"p", some []⟩] [("p", [])]
    [("p", []), ("ghost", ["mon"])] (fun _ _ => Except.ok ()) "ghost" (by decide)
  exact ⟨by decide, h.1, h.2⟩

/-- Claim C7: for an id present in the draft map, toggling the same token
twice in a row leaves the draft entry set-equal to its value before the
first toggle. -/
theorem C7_toggle_self_inverse (draft : SpecialMap) (id t : String) (l : List String)
    (h : getVal draft id = some l) :
    ((getVal (toggleDay id t (toggleDay id t draft)) id).getD []).toFinset
      = l.toFinset := by
  have k1 := toggleDay_getVal_self draft id t
  rw [h] at k1
  simp only [Option.getD_some] at k1
  by_cases hc : l.contains t = true
  · rw [if_pos hc] at k1
    have hmem : t ∈ l := (contains_iff_mem l t).mp hc
    have k2 := toggleDay_getVal_self (toggleDay id t draft) id t
    rw [k1] at k2
    simp only [Option.getD_some] at k2
    have hnc : (l.filter (fun d => d != t)).contains t = false := by
      rw [← Bool.not_eq_true, contains_iff_mem]
      simp
    rw [hnc] at k2
    simp only [Bool.false_eq_true, if_false] at k2
    rw [k2, Option.getD_some]
    apply Finset.ext
    intro x
    simp only [List.mem_toFinset, List.mem_append, List.mem_filter, bne_iff_ne,
      decide_eq_true_eq, List.mem_singleton]
    constructor
    · rintro (⟨hx, -⟩ | rfl)
      · exact hx
      · exact hmem
    · intro hx
      by_cases hxt : x = t
      · exact Or.inr hxt
      · exact Or.inl ⟨hx, hxt⟩
  · rw [if_neg hc] at k1
    have hnotmem : t ∉ l := fun hm => hc ((contains_iff_mem l t).mpr hm)
    have k2 := toggleDay_getVal_self (toggleDay id t draft) id t
    rw [k1] at k2
    simp only [Option.getD_some] at k2
    have hcc : (l ++ [t]).contains t = true := by
      rw [contains_iff_mem]
      simp
    rw [hcc] at k2
    simp only [eq_self_iff_true, if_true] at k2
    have hfl : (l ++ [t]).filter (fun d => d != t) = l := by
      rw [List.filter_append]
      have h1 : l.filter (fun d => d != t) = l :=
        List.filter_eq_self.mpr (fun a ha => by
          simp only [bne_iff_ne, ne_eq, decide_eq_true_eq]
          exact fun heq => hnotmem (heq ▸ ha))
      have h2 : ([t] : List String).filter (fun d => d != t) = [] := by simp
      rw [h1, h2, List.append_nil]
    rw [hfl] at k2
    rw [k2, Option.getD_some]

/-- Witness for C7: toggling `"tue"` twice on the entry `["mon"]` restores
its element set. -/
theorem C7_witness :
    getVal [("p", ["mon"])] "p" = some ["mon"]
    ∧ ((getVal (toggleDay "p" "tue" (toggleDay "p" "tue" [("p", ["mon"])])) "p").getD
        []).toFinset
      = (["mon"] : List String).toFinset :=
  ⟨by decide, C7_toggle_self_inverse [("p", ["mon"])] "p" "tue" ["mon"] (by decide)⟩

/-- Claim C3: `saveChanges` never escapes to its caller — for every
behaviour of the per-item dispatch it returns an aggregate outcome, emits
at most one toast, a success toast exactly when there were dirty ids and
every dispatch succeeded, and an error toast exactly when there were dirty
ids and at least one dispatch failed. -/
theorem C3_save_never_throws (items : List Product) (orig draft : SpecialMap)
    (dispatch : String → List String → Except String Unit) :
    (saveChanges items orig draft dispatch).toasts.length ≤ 1
    ∧ ((saveChanges items orig draft dispatch).toasts = [Toast.success]
        ↔ changedIds items orig draft ≠ []
          ∧ ∀ id ∈ changedIds items orig draft,
              dispatch id ((getVal draft id).getD []) = Except.ok ())
    ∧ ((saveChanges items orig draft dispatch).toasts = [Toast.error]
        ↔ changedIds items orig draft ≠ []
          ∧ ∃ id ∈ changedIds items orig draft,
              dispatch id ((getVal draft id).getD []) ≠ Except.ok ()) := by
  by_cases hids : changedIds items orig draft = []
  · rw [saveChanges_empty_branch items orig draft dispatch hids]
    refine ⟨by simp, ?_, ?_⟩
    · constructor
      · intro hcontra
        exact absurd hcontra (by simp)
      · rintro ⟨hne, -⟩
        exact absurd hids hne
    · constructor
      · intro hcontra
        exact absurd hcontra (by simp)
      · rintro ⟨hne, -⟩
        exact absurd hids hne
  · cases hsa : saveAttempt (changedIds items orig draft) draft dispatch with
    | ok u =>
      cases u
      rw [saveChanges_ok_branch items orig draft dispatch hids hsa]
      have hall := (saveAttempt_eq_ok_iff (changedIds items orig draft) draft dispatch).mp hsa
      refine ⟨by simp, ⟨fun _ => ⟨hids, hall⟩, fun _ => rfl⟩, ?_⟩
      constructor
      · intro hcontra
        simp at hcontra
      · rintro ⟨-, id, hid, hne⟩
        exact absurd (hall id hid) hne
    | error e =>
      rw [saveChanges_error_branch items orig draft dispatch e hsa]
      have hex : ∃ id ∈ changedIds items orig draft,
          dispatch id ((getVal draft id).getD []) ≠ Except.ok () := by
        have hne : saveAttempt (changedIds items orig draft) draft dispatch
            ≠ Except.ok () := by
          rw [hsa]
          intro hcon
          cases hcon
        rw [saveAttempt] at hne
        rcases (firstError_ne_ok_iff _).mp hne with ⟨r, hr, hrne⟩
        rcases List.mem_map.mp hr with ⟨id, hid, rfl⟩
        exact ⟨id, hid, hrne⟩
      refine ⟨by simp, ?_, ⟨fun _ => ⟨hids, hex⟩, fun _ => rfl⟩⟩
      constructor
      · intro hcontra
        simp at hcontra
      · rintro ⟨-, hall⟩
        rcases hex with ⟨id, hid, hne⟩
        exact absurd (hall id hid) hne

/-- Counterexample to claim C1 as stated: with A clean, B dirty (its
dispatch succeeds) and C dirty (its dispatch fails), the code's single
`Promise.all` + `catch` leaves B's baseline UNEQUAL to B's draft — the
claimed per-item advance of B's baseline does not happen. -/
theorem C1_counterexample :
    getVal (saveChanges
        [⟨"a", some ["mon"]⟩, ⟨"b", some ["mon"]⟩, ⟨"c", some ["mon"]⟩]
        [("a", ["mon"]), ("b", ["mon"]), ("c", ["mon"])]
        (toggleDay "c" "tue" (toggleDay "b" "tue"
          [("a", ["mon"]), ("b", ["mon"]), ("c", ["mon"])]))
        (fun id _ => if id = "c" then Except.error "update failed" else Except.ok ())
      ).originalSpecialDays "b"
      ≠ getVal (saveChanges
        [⟨"a", some ["mon"]⟩, ⟨"b", some ["mon"]⟩, ⟨"c", some ["mon"]⟩]
        [("a", ["mon"]), ("b", ["mon"]), ("c", ["mon"])]
        (toggleDay "c" "tue" (toggleDay "b" "tue"
          [("a", ["mon"]), ("b", ["mon"]), ("c", ["mon"])]))
        (fun id _ => if id = "c" then Except.error "update failed" else Except.ok ())
      ).draftSpecialDays "b" := by decide

/-- Claim C1 (amended): reconciliation is all-or-nothing, not per item —
whenever any dirty id's dispatch fails, `saveChanges` leaves the entire
baseline map and the entire draft map unchanged, so a sibling whose own
dispatch succeeded stays dirty alongside the failed one (A, clean, is of
course also unchanged). -/
theorem C1_save_all_or_nothing (items : List Product) (orig draft : SpecialMap)
    (dispatch : String → List String → Except String Unit)
    (h : ∃ id ∈ changedIds items orig draft,
          dispatch id ((getVal draft id).getD []) ≠ Except.ok ()) :
    (saveChanges items orig draft dispatch).originalSpecialDays = orig
    ∧ (saveChanges items orig draft dispatch).draftSpecialDays = draft := by
  have hne : saveAttempt (changedIds items orig draft) draft dispatch
      ≠ Except.ok () := by
    rw [saveAttempt, firstError_ne_ok_iff]
    rcases h with ⟨id, hid, hh⟩
    exact ⟨dispatch id ((getVal draft id).getD []), List.mem_map_of_mem _ hid, hh⟩
  cases hsa : saveAttempt (changedIds items orig draft) draft dispatch with
  | ok u =>
    cases u
    exact absurd hsa hne
  | error e =>
    rw [saveChanges_error_branch items orig draft dispatch e hsa]
    exact ⟨rfl, rfl⟩

/-- Witness for the amended C1, at the counterexample's input: C's dispatch
fails, and both maps come back exactly as they went in. -/
theorem C1_witness :
    (∃ id ∈ changedIds [⟨"a", some ["mon"]⟩, ⟨"b", some ["mon"]⟩, ⟨"c", some ["mon"]⟩]
        [("a", ["mon"]), ("b", ["mon"]), ("c", ["mon"])]
        [("a", ["mon"]), ("b", ["mon", "tue"]), ("c", ["mon", "tue"])],
      (if id = "c" then Except.error "update failed" else Except.ok ()) ≠ Except.ok ())
    ∧ (saveChanges [⟨"a", some ["mon"]⟩, ⟨"b", some ["mon"]⟩, ⟨"c", some ["mon"]⟩]
        [("a", ["mon"]), ("b", ["mon"]), ("c", ["mon"])]
        [("a", ["mon"]), ("b", ["mon", "tue"]), ("c", ["mon", "tue"])]
        (fun id _ => if id = "c" then Except.error "update failed" else Except.ok ())
      ).originalSpecialDays = [("a", ["mon"]), ("b", ["mon"]), ("c", ["mon"])]
    ∧ (saveChanges [⟨"a", some ["mon"]⟩, ⟨"b", some ["mon"]⟩, ⟨"c", some ["mon"]⟩]
        [("a", ["mon"]), ("b", ["mon"]), ("c", ["mon"])]
        [("a", ["mon"]), ("b", ["mon", "tue"]), ("c", ["mon", "tue"])]
        (fun id _ => if id = "c" then Except.error "update failed" else Except.ok ())
      ).draftSpecialDays = [("a", ["mon"]), ("b", ["mon", "tue"]), ("c", ["mon", "tue"])] := by
  have h := C1_save_all_or_nothing
    [⟨"a", some ["mon"]⟩, ⟨"b", some ["mon"]⟩, ⟨"c", some ["mon"]⟩]
    [("a", ["mon"]), ("b", ["mon"]), ("c", ["mon"])]
    [("a", ["mon"]), ("b", ["mon", "tue"]), ("c", ["mon", "tue"])]
    (fun id _ => if id = "c" then Except.error "update failed" else Except.ok ())
    (by decide)
  exact ⟨by decide, h.1, h.2⟩

/-- Counterexample to claim C2 as stated: toggling an id that is absent
from the draft map is not a no-op — the map gains an entry. -/
theorem C2_counterexample :
    getVal ([] : SpecialMap) "ghost" = none
    ∧ toggleDay "ghost" "mon" ([] : SpecialMap) ≠ ([] : SpecialMap) := by decide

/-- Claim C2 (amended): `toggleDay` on an id absent from the draft map
treats the missing entry as empty and inserts `[token]` for that id —
rather than leaving the map unchanged — while every other entry keeps its
value; the stray entry stays invisible to `changedIds`/`saveChanges`,
which only consider loaded items' ids. -/
theorem C2_toggle_unseeded_inserts (draft : SpecialMap) (id t : String)
    (h : getVal draft id = none) :
    getVal (toggleDay id t draft) id = some [t]
    ∧ ∀ j, j ≠ id → getVal (toggleDay id t draft) j = getVal draft j := by
  constructor
  · have k := toggleDay_getVal_self draft id t
    rw [h] at k
    simpa using k
  · intro j hj
    exact toggleDay_getVal_ne draft id t j hj

/-- Witness for the amended C2: toggling the unseeded `"ghost"` inserts
`["tue"]` and leaves the `"p"` entry alone. -/
theorem C2_witness :
    getVal [("p", ["mon"])] "ghost" = none
    ∧ getVal (toggleDay "ghost" "tue" [("p", ["mon"])]) "ghost" = some ["tue"]
    ∧ getVal (toggleDay "ghost" "tue" [("p", ["mon"])]) "p" = some ["mon"] := by
  have h := C2_toggle_unseeded_inserts [("p", ["mon"])] "ghost" "tue" (by decide)
  exact ⟨by decide, h.1, (h.2 "p" (by decide)).trans (by decide)⟩

/-- Counterexample to claim C8 as stated: with baseline
`["mon", "mon", "tue"]` and draft `["mon", "tue", "tue"]` the two values
have equal cardinality and equal element sets, yet `changedIds` reports the
id dirty — the sort-and-compare is multiset equality, not the claimed
"equal cardinality and equal element sets" criterion. -/
theorem C8_counterexample :
    (["mon", "mon", "tue"] : List String).length
        = (["mon", "tue", "tue"] : List String).length
    ∧ (["mon", "mon", "tue"] : List String).toFinset
        = (["mon", "tue", "tue"] : List String).toFinset
    ∧ changedIds [⟨"x", some ["mon", "mon", "tue"]⟩]
        [("x", ["mon", "mon", "tue"])] [("x", ["mon", "tue", "tue"])] = ["x"] := by decide

/-- Claim C8 (amended): dirty detection is order-independent — an id is
reported dirty exactly when it is a loaded item id and its baseline and
draft values differ as multisets (are not permutations of each other); in
particular baseline `[mon, tue]` against draft `[tue, mon]` is clean. -/
theorem C8_dirty_iff_not_perm :
    (∀ (items : List Product) (orig draft : SpecialMap) (id : String),
        id ∈ changedIds items orig draft
          ↔ id ∈ items.map Product._id
            ∧ ¬ List.Perm ((getVal orig id).getD []) ((getVal draft id).getD []))
    ∧ changedIds [⟨"x", some ["mon", "tue"]⟩]
        [("x", ["mon", "tue"])] [("x", ["tue", "mon"])] = [] :=
  ⟨fun items orig draft id => mem_changedIds_iff items orig draft id, by decide⟩

end SpecialItems
